import Mathlib

/-!
# Boardfarm Device Resolution & Environment Matcher — verification

Shallow embedding of the core algorithms of the boardfarm repository:

* `EnvHelper.env_check`'s inner function `contained`
  (`boardfarm/lib/env_helper.py`), a recursive structural-containment
  matcher over JSON-like environment trees;
* `EnvHelper.__init__`'s version whitelist check (same file);
* the device composer `get_device` / `bf_node`
  (`boardfarm/devices/__init__.py`).

Python values occurring in environment trees are modelled by the mutual
inductives `Val` / `VList` / `VDict` (None, strings, integers, lists,
dicts).  Python dicts are association lists in insertion order; real
Python dicts never carry duplicate keys.  Python exceptions raised by the
translated code are modelled with an explicit error type in `Except`.
-/

mutual

/-- A JSON-like Python value: `None`, `str`, `int`, `list`, `dict`. -/
inductive Val where
  | null : Val
  | str (s : String) : Val
  | int (n : Int) : Val
  | list (l : VList) : Val
  | dict (kvs : VDict) : Val

/-- A Python list of values. -/
inductive VList where
  | nil : VList
  | cons (hd : Val) (tl : VList) : VList

/-- A Python dict with string keys, in insertion order. -/
inductive VDict where
  | nil : VDict
  | cons (k : String) (v : Val) (tl : VDict) : VDict

end

deriving instance DecidableEq for Val, VList, VDict
deriving instance Repr for Val, VList, VDict

deriving instance DecidableEq for Except

/-- Python exceptions that the matcher code can raise. -/
inductive PyErr where
  | indexError : PyErr
  | typeError : PyErr
  | attributeError : PyErr
deriving DecidableEq, Repr

namespace VList

/-- `len(l)` for a Python list. -/
def length : VList → Nat
  | .nil => 0
  | .cons _ t => t.length + 1

/-- Python `v in l` membership test (element-wise `==`). -/
def contains : VList → Val → Bool
  | .nil, _ => false
  | .cons h t, v => decide (h = v) || t.contains v

/-- View a `VList` as a Lean list (used only in theorem statements). -/
def toList : VList → List Val
  | .nil => []
  | .cons h t => h :: t.toList

end VList

namespace VDict

/-- `len(d)` for a Python dict. -/
def length : VDict → Nat
  | .nil => 0
  | .cons _ _ t => t.length + 1

/-- `d[k]` / `k in d` on a Python dict (first binding; real dicts have
unique keys). -/
def lookup : VDict → String → Option Val
  | .nil, _ => none
  | .cons k v t, k' => if k = k' then some v else t.lookup k'

/-- Does the dict hold the exact key/value pair `(k, v)`?
(One membership test of `d.items()`.) -/
def hasPair : VDict → String → Val → Bool
  | .nil, _, _ => false
  | .cons k v t, k', v' => (decide (k = k') && decide (v = v')) || t.hasPair k' v'

/-- View a `VDict` as a Lean association list (used in theorem statements). -/
def toList : VDict → List (String × Val)
  | .nil => []
  | .cons k v t => (k, v) :: t.toList

end VDict

/-- Induction on the list structure of a `VList` alone (the generated
recursor is mutual, so we provide a single-motive one). -/
def VList.indOn {motive : VList → Prop} (nil : motive .nil)
    (cons : ∀ hd tl, motive tl → motive (.cons hd tl)) : ∀ l, motive l
  | .nil => nil
  | .cons hd tl => cons hd tl (VList.indOn nil cons tl)

/-- Induction on the list structure of a `VDict` alone. -/
def VDict.indOn {motive : VDict → Prop} (nil : motive .nil)
    (cons : ∀ k v tl, motive tl → motive (.cons k v tl)) : ∀ d, motive d
  | .nil => nil
  | .cons k v tl => cons k v tl (VDict.indOn nil cons tl)

/-- Python `t.items() <= e.items()`: every key/value pair of `t` is also a
pair of `e`. -/
def itemsSub (t e : VDict) : Bool :=
  match t with
  | .nil => true
  | .cons k v rest => e.hasPair k v && itemsSub rest e

/-- Is the value a Python `dict`? (`type(x) is dict`). -/
def isDictV : Val → Bool
  | .dict _ => true
  | _ => false

/-- Is the value a Python `list`? (`type(x) is list`). -/
def isListV : Val → Bool
  | .list _ => true
  | _ => false

/-- Is the value a Python scalar, i.e. neither a `dict` nor a `list`? -/
def isScalarV : Val → Bool
  | .dict _ => false
  | .list _ => false
  | _ => true

/-- Is `n` a prefix of `h` (character lists)? -/
def prefEq : List Char → List Char → Bool
  | [], _ => true
  | _ :: _, [] => false
  | a :: as, b :: bs => decide (a = b) && prefEq as bs

/-- Substring occurrence on character lists. -/
def strInL (n : List Char) : List Char → Bool
  | [] => n.isEmpty
  | c :: t => prefEq n (c :: t) || strInL n t

/-- Python `needle in hay` on strings (substring test). -/
def strIn (needle hay : String) : Bool :=
  strInL needle.toList hay.toList

/-- Python `s.startswith(pre)`. -/
def pyStarts (s pre : String) : Bool :=
  prefEq pre.toList s.toList

/-- Python `s.endswith(suf)`. -/
def pyEnds (s suf : String) : Bool :=
  prefEq suf.toList.reverse s.toList.reverse

/-!
## The environment matcher `contained` (`env_helper.py`, lines 192-234)

`env_check`'s inner function `contained(env_test, env_helper)` is translated
with `env_test` (the required tree) as the first argument and `env_helper`
(the available tree) as the second.  The list-against-list loop is split
into `removeFirstSuper` (the inner `for env in env_helper_list` search with
`env_helper_list.remove(env)`) and `loopMatch` (the outer
`for test in env_test` loop with its `count`).
-/

/-- Inner search of the list-matching loop: find the first entry of the
working copy whose `items()` are a superset of `tkvs`, and remove it.
`env.items()` raises `AttributeError` on a non-dict entry scanned before a
match is found (`test.items() <= env.items()` in the source). -/
def removeFirstSuper (tkvs : VDict) : VList → Except PyErr (Option VList)
  | .nil => .ok none
  | .cons e rest =>
    match e with
    | .dict ekvs =>
      if itemsSub tkvs ekvs then .ok (some rest)
      else
        match removeFirstSuper tkvs rest with
        | .ok (some rest') => .ok (some (.cons (.dict ekvs) rest'))
        | r => r
    | _ => .error .attributeError

/-- Outer list-matching loop (`for test in env_test`): a non-dict required
element must be present in the working copy (hard failure, returned as
`none`, if absent; presence does not consume it); a dict required element
consumes the first superset entry of the working copy if one exists.
Returns the final `count` of matched elements. -/
def loopMatch : VList → VList → Except PyErr (Option Nat)
  | .nil, _ => .ok (some 0)
  | .cons t ts, copy =>
    match t with
    | .dict tkvs =>
      match removeFirstSuper tkvs copy with
      | .error e => .error e
      | .ok none => loopMatch ts copy
      | .ok (some copy') =>
        match loopMatch ts copy' with
        | .ok (some c) => .ok (some (c + 1))
        | r => r
    | _ =>
      if copy.contains t then
        match loopMatch ts copy with
        | .ok (some c) => .ok (some (c + 1))
        | r => r
      else .ok none

mutual

/-- `contained(env_test, env_helper)` from `env_check`: structural
containment of the required tree in the available tree, dispatching on the
shape of the required value exactly as the source does. -/
def contained : Val → Val → Except PyErr Bool
  | .dict kvs, avail => containedKeys kvs avail
  | .list ts, avail =>
    match avail with
    | .list av =>
      match ts with
      | .nil => .error .indexError        -- env_test[0] on an empty list
      | .cons t0 _ =>
        if t0 = Val.null ∧ av ≠ VList.nil then .ok true
        else
          match loopMatch ts av with      -- env_helper_list = env_helper.copy()
          | .error e => .error e
          | .ok none => .ok false
          | .ok (some c) => .ok (decide (c = ts.length))
    | _ => .ok (ts.contains avail)        -- return env_helper in env_test
  | t, avail =>
    if t = Val.null ∧ avail ≠ Val.null then .ok true
    else .ok (decide (t = avail))

/-- The dict branch of `contained`: `for k in env_test: if k not in
env_helper or not contained(env_test[k], env_helper[k]): return False`.
When the available value is not a dict, Python's `in`/indexing semantics
apply: membership in a list or substring test on a string, then a
`TypeError` on indexing; `in` itself raises `TypeError` on other types. -/
def containedKeys : VDict → Val → Except PyErr Bool
  | .nil, _ => .ok true
  | .cons k v rest, avail =>
    match avail with
    | .dict akvs =>
      match akvs.lookup k with
      | none => .ok false
      | some av =>
        match contained v av with
        | .ok true => containedKeys rest avail
        | .ok false => .ok false
        | .error e => .error e
    | .list l => if l.contains (.str k) then .error .typeError else .ok false
    | .str s => if strIn k s then .error .typeError else .ok false
    | _ => .error .typeError

end

/-- Required list of Scenario D:
`[{"device_type": "lan"}, {"device_type": "lan"}]`. -/
def reqScenD : Val :=
  .list (.cons (.dict (.cons "device_type" (.str "lan") .nil))
    (.cons (.dict (.cons "device_type" (.str "lan") .nil)) .nil))

/-- Available list of Scenario D: `[{"device_type": "lan", "name": "lan1"}]`. -/
def avScenD : Val :=
  .list (.cons (.dict (.cons "device_type" (.str "lan")
    (.cons "name" (.str "lan1") .nil))) .nil)

/-- The required map of Scenario D, `{"device_type": "lan"}`. -/
def scanTk : VDict := .cons "device_type" (.str "lan") .nil

/-- The available working copy of Scenario D,
`[{"device_type": "lan", "name": "lan1"}]`. -/
def scanCopy : VList :=
  .cons (.dict (.cons "device_type" (.str "lan")
    (.cons "name" (.str "lan1") .nil))) .nil

/-- Does the dict hold key `k`? (`k in d.keys()`). -/
def keysHas : VDict → String → Bool
  | .nil, _ => false
  | .cons k _ t, k' => decide (k = k') || keysHas t k'

/-- The keys of the dict are pairwise distinct (every real Python dict
satisfies this). -/
def nodupKeysD : VDict → Bool
  | .nil => true
  | .cons k _ t => !keysHas t k && nodupKeysD t

/-- No element of the list is a dict. -/
def allNonDictL : VList → Bool
  | .nil => true
  | .cons h t => !isDictV h && allNonDictL t

/-- No non-dict element of the list precedes a dict element: once a
non-dict appears, everything after it is a non-dict. -/
def mapsFirstL : VList → Bool
  | .nil => true
  | .cons h t =>
    match h with
    | .dict _ => mapsFirstL t
    | _ => allNonDictL t

mutual

/-- Well-formedness condition under which `contained` is reflexive (the
amended form of claim C4): maps have duplicate-free keys and well-formed
values, and every sequence is non-empty and either starts with the
wildcard or has no non-map element before a map element (an empty
sequence is indexed at `[0]`, and a non-map sitting in the working copy
in front of a later required map makes the matching loop call `.items()`
on it). -/
def reflSafe : Val → Bool
  | .dict kvs => nodupKeysD kvs && reflSafeD kvs
  | .list .nil => false
  | .list (.cons h t) =>
      decide (h = Val.null) || mapsFirstL (.cons h t)
  | _ => true

/-- `reflSafe` for every value of a dict. -/
def reflSafeD : VDict → Bool
  | .nil => true
  | .cons _ v t => reflSafe v && reflSafeD t

end

/-- Overwrite the value stored at an existing key (the in-place update of
a Python dict object's slot); a no-op when the key is absent. -/
def VDict.setKey : VDict → String → Val → VDict
  | .nil, _, _ => .nil
  | .cons k v t, k', v' =>
    if k = k' then .cons k v' t else .cons k v (t.setKey k' v')

mutual

/-- `contained` with the Python heap made explicit: the required and
available trees are threaded through the call and returned in their final
states.  Each translated statement that mutates an object updates the
corresponding component; the list branch builds its working copy with
`env_helper_list = env_helper.copy()` and all removals rebind only that
copy, so the available list is returned as it was read. -/
def containedSt : Val → Val → (Except PyErr Bool) × Val × Val
  | .dict kvs, avail =>
    ((containedKeysSt kvs avail).1, .dict (containedKeysSt kvs avail).2.1,
     (containedKeysSt kvs avail).2.2)
  | .list ts, avail =>
    match avail with
    | .list av =>
      match ts with
      | .nil => (.error .indexError, .list .nil, .list av)
      | .cons t0 t =>
        if t0 = Val.null ∧ av ≠ VList.nil then (.ok true, .list (.cons t0 t), .list av)
        else
          match loopMatch (.cons t0 t) av with
          | .error e => (.error e, .list (.cons t0 t), .list av)
          | .ok none => (.ok false, .list (.cons t0 t), .list av)
          | .ok (some c) =>
            (.ok (decide (c = (VList.cons t0 t).length)), .list (.cons t0 t), .list av)
    | _ => (.ok (ts.contains avail), .list ts, avail)
  | t, avail =>
    if t = Val.null ∧ avail ≠ Val.null then (.ok true, t, avail)
    else (.ok (decide (t = avail)), t, avail)

/-- State-threaded form of `containedKeys`: the updated state of a value
fetched from the available dict is stored back into the parent dict slot
it was read from (Python aliasing). -/
def containedKeysSt : VDict → Val → (Except PyErr Bool) × VDict × Val
  | .nil, avail => (.ok true, .nil, avail)
  | .cons k v rest, avail =>
    match avail with
    | .dict akvs =>
      match akvs.lookup k with
      | none => (.ok false, .cons k v rest, .dict akvs)
      | some av =>
        match (containedSt v av).1 with
        | .ok true =>
          ((containedKeysSt rest (.dict (akvs.setKey k (containedSt v av).2.2))).1,
           .cons k (containedSt v av).2.1
             (containedKeysSt rest (.dict (akvs.setKey k (containedSt v av).2.2))).2.1,
           (containedKeysSt rest (.dict (akvs.setKey k (containedSt v av).2.2))).2.2)
        | .ok false =>
          (.ok false, .cons k (containedSt v av).2.1 rest,
           .dict (akvs.setKey k (containedSt v av).2.2))
        | .error e =>
          (.error e, .cons k (containedSt v av).2.1 rest,
           .dict (akvs.setKey k (containedSt v av).2.2))
    | .list l =>
      (if l.contains (.str k) then .error .typeError else .ok false,
        .cons k v rest, .list l)
    | .str s =>
      (if strIn k s then .error .typeError else .ok false, .cons k v rest, .str s)
    | _ => (.error .typeError, .cons k v rest, avail)

end

/-!
## `EnvHelper.__init__` (`env_helper.py`, lines 30-63)
-/

/-- Python exceptions `EnvHelper.__init__` can raise while reading
`env["version"]` and asserting it. -/
inductive InitErr where
  | typeError : InitErr
  | keyError : InitErr
  | assertVersion : InitErr
deriving DecidableEq, Repr

/-- The fields of an `EnvHelper` instance after `__init__`; `none` models
an attribute that was never assigned (the `env is None` early return). -/
structure EnvHelperS where
  env : Option Val
  mirror : Option String
deriving DecidableEq, Repr

/-- The whitelist of supported environment schema versions, verbatim from
the `assert` in `EnvHelper.__init__`. -/
def supportedVersions : List String :=
  ["1.0", "1.1", "1.2", "2.0", "2.1", "2.2", "2.3", "2.4", "2.5", "2.6",
   "2.7", "2.8", "2.9", "2.10", "2.11", "2.12", "2.13", "2.14", "2.15",
   "2.16", "2.17", "2.18", "2.19"]

/-- `EnvHelper.__init__(env, mirror)`: a `None` document returns at once
with nothing assigned; otherwise `env["version"]` is read (a `KeyError`
when absent, a `TypeError` when the document is not a dict) and asserted
to be one of the whitelisted version strings, then the document and the
mirror (`""` when falsy) are stored. -/
def envHelperInit (env : Option Val) (mirror : Option String) :
    Except InitErr EnvHelperS :=
  match env with
  | none => .ok ⟨none, none⟩
  | some doc =>
    match doc with
    | .dict kvs =>
      match kvs.lookup "version" with
      | none => .error .keyError
      | some v =>
        match v with
        | .str s =>
          if s ∈ supportedVersions then
            .ok ⟨some (.dict kvs), some (mirror.getD "")⟩
          else .error .assertVersion
        | _ => .error .assertVersion
    | _ => .error .typeError

/-!
## The device composer (`devices/__init__.py`)

`bf_node` (lines 124-170) and `get_device` (lines 173-244).  A Descriptor
(a device class discovered by `probe_devices`) is modelled by its name,
its `model` attribute (a string or a tuple of alias strings) and the list
of its `__dict__` attribute names.  `kwargs` and the caller's `profile`
mapping are Python dicts (`VDict`); the profile mapping is threaded
through resolution and returned, because `get_device` pops colliding keys
from the caller's `profile[alias]` dict in place.
-/

/-- The `model` attribute of a device class: a single name or a tuple of
alias names. -/
inductive ModelAttr where
  | str (s : String) : ModelAttr
  | tup (ls : List String) : ModelAttr
deriving DecidableEq, Repr

/-- A device class (Descriptor): its class name, `model` attribute, and
the attribute names of its `__dict__` (every class collected by
`probe_devices` has a `model` attribute). -/
structure Dev where
  name : String
  model : ModelAttr
  members : List String
deriving DecidableEq, Repr

/-- The non-reserved exported members of a class, from `bf_node`:
`__dict__` attributes that neither start nor end with `__` and are not
`model`, `prompt` or `profile`. -/
def clsMembers (d : Dev) : List String :=
  d.members.filter (fun a =>
    !pyStarts a "__" && !pyEnds a "__" &&
    !(decide (a = "model") || decide (a = "prompt") || decide (a = "profile")))

/-- The conflict-check loop of `bf_node`: accumulate each class's
non-reserved members; if a class's members intersect the accumulated set,
raise naming the common members and
`cls_list[: cls_list.index(cls) + 1]`. -/
def bfNodeLoop (cls_list : List Dev) : List Dev → List String →
    Except (List String × List Dev) Unit
  | [], _ => .ok ()
  | c :: rest, acc =>
    let members := clsMembers c
    let common := members.filter (fun m => decide (m ∈ acc))
    if common.isEmpty then bfNodeLoop cls_list rest (acc ++ members)
    else .error (common, cls_list.take (cls_list.indexOf c + 1))

/-- The composite instance built by `bf_node`: it exposes every attribute
of every listed class, and `ret.target = kwargs`. -/
structure Composite where
  exposed : List String
  target : VDict
deriving DecidableEq, Repr

/-- `bf_node(cls_list, model, device_mgr, **kwargs)`: run the conflict
check, then build the dynamic composite exposing the union of the classes'
attributes with the merged `kwargs` recorded as `target`. -/
def bfNode (cls_list : List Dev) (kwargs : VDict) :
    Except (List String × List Dev) Composite :=
  match bfNodeLoop cls_list cls_list [] with
  | .error e => .error e
  | .ok _ => .ok ⟨cls_list.flatMap Dev.members, kwargs⟩

/-- Errors surfaced by `get_device`'s resolution phase. -/
inductive GdErr where
  | notSupported (model : String) : GdErr
  | conflict (names : List String) (devs : List Dev) : GdErr
deriving DecidableEq, Repr

/-- View a value as a dict (profile override values are dicts in every
real profile; `get_device` applies dict operations to them directly). -/
def asDict : Val → VDict
  | .dict d => d
  | _ => .nil

/-- `dict.pop(k)`: remove the binding of `k`. -/
def VDict.eraseKey : VDict → String → VDict
  | .nil, _ => .nil
  | .cons k v t, k' => if k = k' then t else .cons k v (t.eraseKey k')

/-- Append a fresh binding at the end (a new key written into a dict). -/
def VDict.append1 : VDict → String → Val → VDict
  | .nil, k, v => .cons k v .nil
  | .cons k0 v0 t, k, v => .cons k0 v0 (t.append1 k v)

/-- `d[k] = v`: overwrite in place when the key exists, else append. -/
def VDict.update1 (d : VDict) (k : String) (v : Val) : VDict :=
  if (d.lookup k).isSome then d.setKey k v else d.append1 k v

/-- `d.update(src)`: write every binding of `src` into `d` in order. -/
def VDict.updateAll : VDict → VDict → VDict
  | d, .nil => d
  | d, .cons k v src => VDict.updateAll (d.update1 k v) src

/-- `for i in common_keys: profile_kwargs.pop(i)` — drop from the profile
override every key that is also a key of `kw`. -/
def VDict.dropKeysIn : VDict → VDict → VDict
  | .nil, _ => .nil
  | .cons k v t, kw =>
    if (kw.lookup k).isSome then t.dropKeysIn kw
    else .cons k v (t.dropKeysIn kw)

/-- Primary-candidate test of `get_device`: the requested model equals the
string attribute, or is a member of the tuple attribute. -/
def primaryMatch (model : String) : ModelAttr → Bool
  | .str s => decide (model = s)
  | .tup ls => decide (model ∈ ls)

/-- Profile-candidate test of `get_device`: when a profile was passed, a
string alias that is a profile key matches, and a tuple attribute matches
when exactly one alias is a profile key (`len(set(attr) & set(profile))
== 1`); returns the matched alias and its override dict. -/
def profMatch (attr : ModelAttr) (profile : VDict) : Option (String × VDict) :=
  if 0 < profile.length then
    match attr with
    | .str s =>
      match profile.lookup s with
      | some pv => some (s, asDict pv)
      | none => none
    | .tup ls =>
      match ls.eraseDups.filter (fun a => (profile.lookup a).isSome) with
      | [a] => some (a, asDict ((profile.lookup a).getD .null))
      | _ => none
  else none

/-- The scanning loop of `get_device` over all registered device classes:
collect primary candidates (`cls_list`) and profile-extension candidates
(`profile_list`); a primary that also matches the profile is skipped with
a warning (no merge happens for it); otherwise colliding override keys are
popped in place from the caller's `profile[alias]` dict and the remaining
override keys are merged into `kwargs`.  Returns
`(cls_list, profile_list, kwargs, profile)` final states. -/
def resolveLoop (model : String) :
    List Dev → List Dev → List Dev → VDict → VDict →
    List Dev × List Dev × VDict × VDict
  | [], cls_list, profile_list, kwargs, profile =>
    (cls_list, profile_list, kwargs, profile)
  | dev :: rest, cls_list, profile_list, kwargs, profile =>
    let cls_list' := if primaryMatch model dev.model then cls_list ++ [dev]
                     else cls_list
    match profMatch dev.model profile with
    | none => resolveLoop model rest cls_list' profile_list kwargs profile
    | some (al, profile_kwargs) =>
      if dev ∈ cls_list' then
        -- "Skipping duplicate device type" + continue: no merge at all
        resolveLoop model rest cls_list' profile_list kwargs profile
      else
        let pk' := profile_kwargs.dropKeysIn kwargs
        let profile' := profile.setKey al (.dict pk')
        let kwargs' := kwargs.updateAll pk'
        resolveLoop model rest cls_list' (profile_list ++ [dev]) kwargs' profile'

/-- `get_device(model, device_mgr, **kwargs)`: read the `profile` mapping,
pop the `override` / `plugin_device` flags, resolve candidates, compose
with `bf_node` (primaries first, then profile extensions), and raise
`BftNotSupportedDevice` when nothing matched.  The second component is the
final state of the caller's `profile` dict object, which `get_device` may
have mutated; the `target` recorded on the composite contains that same
object under the `profile` key. -/
def getDevice (devs : List Dev) (model : String) (kwargs0 : VDict) :
    (Except GdErr Composite) × VDict :=
  let profile := asDict ((kwargs0.lookup "profile").getD .null)
  let kwargs1 := (kwargs0.eraseKey "override").eraseKey "plugin_device"
  match resolveLoop model devs [] [] kwargs1 profile with
  | (cls_list, profile_list, kwargs2, profile') =>
    let all_cls := cls_list ++ profile_list
    let kwargs3 := if (kwargs2.lookup "profile").isSome
                   then kwargs2.setKey "profile" (.dict profile')
                   else kwargs2
    if all_cls.isEmpty then (.error (.notSupported model), profile')
    else
      match bfNode all_cls kwargs3 with
      | .ok comp => (.ok comp, profile')
      | .error (names, ds) => (.error (.conflict names ds), profile')

/-- The exception classes that can cross `get_device`'s `try` block, by
(type, message). -/
inductive PyExc where
  | bftNotSupportedDevice (msg : String) : PyExc
  | connectionRefused (msg : String) : PyExc
  | pexpectEOF : PyExc
  | exception (msg : String) : PyExc
deriving DecidableEq, Repr

/-- The `except` clauses of `get_device` (lines 230-242): re-raise
`BftNotSupportedDevice` and `ConnectionRefused` unchanged; turn
`pexpect.EOF` into `Exception(msg)` with the model name in the message;
re-raise any other exception as `Exception(str(e))`. -/
def getDeviceExceptClauses (model : String) : PyExc → PyExc
  | .bftNotSupportedDevice m => .bftNotSupportedDevice m
  | .connectionRefused m => .connectionRefused m
  | .pexpectEOF =>
    .exception ("Failed to connect to a " ++ model
      ++ ", unable to connect (in use) or possibly misconfigured")
  | .exception m => .exception m

/-- Scenario A registry: D1 with alias `"modemA"` exporting `start`/`stop`
and D2 with alias `"modemA"` exporting `configure` (plus the `model` and
`profile` attributes every such class declares). -/
def regA : List Dev :=
  [⟨"D1", .str "modemA", ["model", "start", "stop"]⟩,
   ⟨"D2", .str "modemA", ["model", "profile", "configure"]⟩]

/-- Scenario A call kwargs: `profile={"modemA": {"mode": "bridge"}}`. -/
def kwA : VDict :=
  .cons "profile"
    (.dict (.cons "modemA" (.dict (.cons "mode" (.str "bridge") .nil)) .nil)) .nil

/-- Registry for the profile-mutation scenario: a primary class with alias
`"lan"` and a separate profile-extension class with alias `"lan2"`. -/
def regB : List Dev :=
  [⟨"LanBase", .str "lan", ["model", "f"]⟩,
   ⟨"LanExt", .str "lan2", ["model", "g"]⟩]

/-- Call kwargs for the profile-mutation scenario: the caller passes
`profile={"lan2": {"color": "red", "speed": 5}}` together with a
pass-through key `color="blue"` that collides with the override. -/
def kwB : VDict :=
  .cons "profile" (.dict (.cons "lan2" (.dict (.cons "color" (.str "red")
    (.cons "speed" (.int 5) .nil))) .nil))
    (.cons "color" (.str "blue") .nil)

/-!
## Theorems about the matcher: C9 and C6
-/

/-- C9 — when the required value is an empty sequence and the available
value is a sequence, `contained` does not return a boolean: it indexes the
first element of the empty required list and fails with an `IndexError`;
an empty required sequence against a non-sequence available returns
`false` by membership in the empty list, so the sequence branch of the
matcher is partial at empty required lists. -/
theorem contained_empty_required_list :
    (∀ av : VList, contained (.list .nil) (.list av) = .error .indexError)
    ∧ (∀ a : Val, isListV a = false → contained (.list .nil) a = .ok false) := by
  constructor
  · intro av; rfl
  · intro a h
    cases a with
    | null => rfl
    | str s => rfl
    | int n => rfl
    | list l => simp [isListV] at h
    | dict kvs => rfl

/-- Witness for C9 at concrete inputs. -/
theorem contained_empty_required_list_witness :
    contained (.list .nil) (.list (.cons (.int 1) .nil)) = .error .indexError
    ∧ (isListV (.int 3) = false ∧ contained (.list .nil) (.int 3) = .ok false) :=
  ⟨contained_empty_required_list.1 (.cons (.int 1) .nil),
   by decide, contained_empty_required_list.2 (.int 3) (by decide)⟩

-- A successful `removeFirstSuper` removes exactly one entry of the working
-- copy (the result is one shorter and a sublist of the input).
theorem rfs_len_sublist (tkvs : VDict) :
    ∀ copy copy', removeFirstSuper tkvs copy = .ok (some copy') →
      copy'.length + 1 = copy.length ∧ copy'.toList.Sublist copy.toList := by
  intro copy
  induction copy using VList.indOn with
  | nil => intro copy' h; exact Option.noConfusion (Except.ok.inj h)
  | cons e rest ih =>
    intro copy' h
    cases e with
    | dict ekvs =>
      have h2 : (if itemsSub tkvs ekvs then (Except.ok (some rest) : Except PyErr (Option VList))
          else match removeFirstSuper tkvs rest with
               | .ok (some rest') => .ok (some (.cons (.dict ekvs) rest'))
               | r => r) = .ok (some copy') := h
      by_cases hs : itemsSub tkvs ekvs = true
      · rw [if_pos hs] at h2
        cases Option.some.inj (Except.ok.inj h2)
        exact ⟨rfl, List.sublist_cons_self _ _⟩
      · rw [if_neg hs] at h2
        cases hr : removeFirstSuper tkvs rest with
        | error e' => rw [hr] at h2; cases h2
        | ok o =>
          cases o with
          | none => rw [hr] at h2; exact Option.noConfusion (Except.ok.inj h2)
          | some rest' =>
            rw [hr] at h2
            cases Option.some.inj (Except.ok.inj h2)
            obtain ⟨hl, hsub⟩ := ih rest' hr
            constructor
            · show rest'.length + 1 + 1 = rest.length + 1
              omega
            · exact List.Sublist.cons₂ _ hsub
    | null => exact Except.noConfusion h
    | str s => exact Except.noConfusion h
    | int n => exact Except.noConfusion h
    | list l => exact Except.noConfusion h

-- When every required element is a dict, the count returned by the
-- matching loop never exceeds the length of the working copy: a consumed
-- entry is gone and cannot be matched twice.
theorem loopMatch_count_le :
    ∀ ts copy c, (∀ t ∈ ts.toList, isDictV t = true) →
      loopMatch ts copy = .ok (some c) → c ≤ copy.length := by
  intro ts
  induction ts using VList.indOn with
  | nil =>
    intro copy c _ h
    cases Option.some.inj (Except.ok.inj h)
    exact Nat.zero_le _
  | cons t ts ih =>
    intro copy c hall h
    have ht : isDictV t = true := hall t (by simp [VList.toList])
    have htl : ∀ u ∈ ts.toList, isDictV u = true := by
      intro u hu; exact hall u (by simp [VList.toList, hu])
    cases t with
    | dict tkvs =>
      have h2 : (match removeFirstSuper tkvs copy with
          | .error e => .error e
          | .ok none => loopMatch ts copy
          | .ok (some copy') =>
            match loopMatch ts copy' with
            | .ok (some c0) => .ok (some (c0 + 1))
            | r => r) = (Except.ok (some c) : Except PyErr (Option Nat)) := h
      cases hr : removeFirstSuper tkvs copy with
      | error e => rw [hr] at h2; cases h2
      | ok o =>
        cases o with
        | none =>
          rw [hr] at h2
          exact ih copy c htl h2
        | some copy' =>
          rw [hr] at h2
          have h4 : (match loopMatch ts copy' with
              | .ok (some c0) => .ok (some (c0 + 1))
              | r => r) = (Except.ok (some c) : Except PyErr (Option Nat)) := h2
          cases hl : loopMatch ts copy' with
          | error e => rw [hl] at h4; cases h4
          | ok o2 =>
            cases o2 with
            | none =>
              rw [hl] at h4
              exact Option.noConfusion (Except.ok.inj h4)
            | some c0 =>
              rw [hl] at h4
              cases Option.some.inj (Except.ok.inj h4)
              have h1 := ih copy' c0 htl hl
              have h3 := (rfs_len_sublist tkvs copy copy' hr).1
              omega
    | null => simp [isDictV] at ht
    | str s => simp [isDictV] at ht
    | int n => simp [isDictV] at ht
    | list l => simp [isDictV] at ht

-- A true result of the list-vs-list branch comes either from the wildcard
-- short-circuit or from a full count: `count == len(env_test)`.
theorem contained_list_ok_count :
    ∀ ts av, contained (.list ts) (.list av) = .ok true →
      ∃ t0 t, ts = VList.cons t0 t ∧
        ((t0 = Val.null ∧ av ≠ VList.nil)
          ∨ loopMatch ts av = .ok (some ts.length)) := by
  intro ts av h
  cases ts with
  | nil => exact Except.noConfusion h
  | cons t0 t =>
    refine ⟨t0, t, rfl, ?_⟩
    by_cases hc : t0 = Val.null ∧ av ≠ VList.nil
    · exact Or.inl hc
    · right
      have h2 : (if t0 = Val.null ∧ av ≠ VList.nil then (Except.ok true : Except PyErr Bool)
          else match loopMatch (VList.cons t0 t) av with
               | .error e => .error e
               | .ok none => .ok false
               | .ok (some c) => .ok (decide (c = (VList.cons t0 t).length)))
          = .ok true := h
      rw [if_neg hc] at h2
      cases hl : loopMatch (VList.cons t0 t) av with
      | error e => rw [hl] at h2; cases h2
      | ok o =>
        cases o with
        | none =>
          rw [hl] at h2
          exact Bool.noConfusion (Except.ok.inj h2)
        | some c =>
          rw [hl] at h2
          have h3 : c = (VList.cons t0 t).length :=
            of_decide_eq_true (Except.ok.inj h2)
          rw [h3]

/-- C3 — in list-against-list matching, an available map entry consumed by
one required map (the first working-copy entry whose key/value pairs are a
superset of the required map's pairs) is removed from the working copy, so
it can never satisfy a second required element; the overall list match
succeeds only if the count of matched elements equals the number of
required elements; hence required
`[{"device_type": "lan"}, {"device_type": "lan"}]` against available
`[{"device_type": "lan", "name": "lan1"}]` yields false. -/
theorem contained_list_map_no_reuse :
    (∀ (tkvs : VDict) (copy copy' : VList),
        removeFirstSuper tkvs copy = .ok (some copy') →
          copy'.length + 1 = copy.length ∧ copy'.toList.Sublist copy.toList)
    ∧ (∀ (ts copy : VList) (c : Nat), (∀ t ∈ ts.toList, isDictV t = true) →
        loopMatch ts copy = .ok (some c) → c ≤ copy.length)
    ∧ (∀ (ts av : VList), contained (.list ts) (.list av) = .ok true →
        ∃ t0 t, ts = VList.cons t0 t ∧
          ((t0 = Val.null ∧ av ≠ VList.nil)
            ∨ loopMatch ts av = .ok (some ts.length)))
    ∧ contained reqScenD avScenD = .ok false :=
  ⟨rfs_len_sublist, loopMatch_count_le, contained_list_ok_count, by decide⟩

/-- Witness for C3: one concrete consuming match of Scenario D's single
available entry. -/
theorem contained_list_map_no_reuse_witness :
    removeFirstSuper scanTk scanCopy = .ok (some .nil)
    ∧ (VList.length VList.nil + 1 = VList.length scanCopy
      ∧ (VList.toList VList.nil).Sublist (VList.toList scanCopy)) :=
  ⟨by decide, contained_list_map_no_reuse.1 scanTk scanCopy .nil (by decide)⟩

/-- C6 — the required wildcard (`None`) matches any non-wildcard available
scalar; a non-wildcard required scalar requires exact equality; and a
required sequence whose first element is the wildcard, matched against an
available sequence `L`, succeeds exactly when `L` is non-empty, regardless
of `L`'s contents. -/
theorem contained_wildcard_and_scalar :
    (∀ a : Val, isScalarV a = true → a ≠ .null → contained .null a = .ok true)
    ∧ (∀ r a : Val, isScalarV r = true → r ≠ .null →
        contained r a = .ok (decide (r = a)))
    ∧ (∀ (rest av : VList),
        contained (.list (.cons .null rest)) (.list av)
          = .ok (decide (av ≠ VList.nil))) := by
  refine ⟨?_, ?_, ?_⟩
  · intro a _ ha
    show (if Val.null = Val.null ∧ a ≠ Val.null then Except.ok true
          else .ok (decide (Val.null = a))) = .ok true
    simp [ha]
  · intro r a hr hn
    cases r with
    | null => simp at hn
    | str s =>
        show (if Val.str s = Val.null ∧ a ≠ Val.null then Except.ok true
              else .ok (decide (Val.str s = a))) = .ok (decide (Val.str s = a))
        simp
    | int n =>
        show (if Val.int n = Val.null ∧ a ≠ Val.null then Except.ok true
              else .ok (decide (Val.int n = a))) = .ok (decide (Val.int n = a))
        simp
    | list l => simp [isScalarV] at hr
    | dict kvs => simp [isScalarV] at hr
  · intro rest av
    cases av with
    | nil =>
        show (if Val.null = Val.null ∧ VList.nil ≠ VList.nil then Except.ok true
              else match loopMatch (.cons .null rest) .nil with
                   | .error e => .error e
                   | .ok none => .ok false
                   | .ok (some c) => .ok (decide (c = (VList.cons .null rest).length)))
            = .ok (decide (VList.nil ≠ VList.nil))
        simp [loopMatch, VList.contains]
    | cons h t => rfl

/-- Witness for C6 at concrete inputs. -/
theorem contained_wildcard_and_scalar_witness :
    contained .null (.str "a") = .ok true
    ∧ contained (.str "x") (.str "y") = .ok (decide (Val.str "x" = Val.str "y"))
    ∧ contained (.list (.cons .null .nil)) (.list (.cons (.int 7) .nil))
        = .ok (decide (VList.cons (Val.int 7) VList.nil ≠ VList.nil)) :=
  ⟨contained_wildcard_and_scalar.1 (.str "a") (by decide) (by decide),
   contained_wildcard_and_scalar.2.1 (.str "x") (.str "y") (by decide) (by decide),
   contained_wildcard_and_scalar.2.2 .nil (.cons (.int 7) .nil)⟩

/-!
## Reflexivity of the matcher (C4)
-/

-- Auto-generated sizeOf bound: a value bound in a dict is smaller than
-- the dict.
theorem hasPair_sizeOf {k : String} {v : Val} :
    ∀ kvs : VDict, kvs.hasPair k v = true → sizeOf v < sizeOf kvs := by
  intro kvs
  induction kvs using VDict.indOn with
  | nil => intro h; simp [VDict.hasPair] at h
  | cons k0 v0 t ih =>
    intro h
    simp only [VDict.hasPair, Bool.or_eq_true, Bool.and_eq_true,
      decide_eq_true_eq] at h
    rcases h with ⟨_, rfl⟩ | h
    · simp; omega
    · have := ih h
      simp
      omega

theorem keysHas_of_hasPair {k : String} {v : Val} :
    ∀ t : VDict, t.hasPair k v = true → keysHas t k = true := by
  intro t
  induction t using VDict.indOn with
  | nil => intro h; simp [VDict.hasPair] at h
  | cons k0 v0 t ih =>
    intro h
    simp only [VDict.hasPair, Bool.or_eq_true, Bool.and_eq_true,
      decide_eq_true_eq] at h
    simp only [keysHas, Bool.or_eq_true, decide_eq_true_eq]
    rcases h with ⟨rfl, _⟩ | h
    · exact Or.inl rfl
    · exact Or.inr (ih h)

-- With duplicate-free keys, looking up the key of any stored pair finds
-- exactly the stored value.
theorem lookup_of_hasPair {k : String} {v : Val} :
    ∀ kvs : VDict, nodupKeysD kvs = true → kvs.hasPair k v = true →
      kvs.lookup k = some v := by
  intro kvs
  induction kvs using VDict.indOn with
  | nil => intro _ h; simp [VDict.hasPair] at h
  | cons k0 v0 t ih =>
    intro hnd h
    simp only [nodupKeysD, Bool.and_eq_true, Bool.not_eq_true'] at hnd
    simp only [VDict.hasPair, Bool.or_eq_true, Bool.and_eq_true,
      decide_eq_true_eq] at h
    rcases h with ⟨rfl, rfl⟩ | h
    · simp [VDict.lookup]
    · have hne : k0 ≠ k := by
        intro rfl_eq
        subst rfl_eq
        rw [keysHas_of_hasPair t h] at hnd
        exact Bool.noConfusion hnd.1
      simp only [VDict.lookup, if_neg hne]
      exact ih hnd.2 h

theorem reflSafe_of_hasPair {k : String} {v : Val} :
    ∀ kvs : VDict, reflSafeD kvs = true → kvs.hasPair k v = true →
      reflSafe v = true := by
  intro kvs
  induction kvs using VDict.indOn with
  | nil => intro _ h; simp [VDict.hasPair] at h
  | cons k0 v0 t ih =>
    intro hs h
    simp only [reflSafeD, Bool.and_eq_true] at hs
    simp only [VDict.hasPair, Bool.or_eq_true, Bool.and_eq_true,
      decide_eq_true_eq] at h
    rcases h with ⟨_, rfl⟩ | h
    · exact hs.1
    · exact ih hs.2 h

-- items() ⊆ items() is reflexive (via pair-wise membership).
theorem itemsSub_of_pairs :
    ∀ t e : VDict, (∀ k v, t.hasPair k v = true → e.hasPair k v = true) →
      itemsSub t e = true := by
  intro t
  induction t using VDict.indOn with
  | nil => intro e _; rfl
  | cons k v rest ih =>
    intro e h
    simp only [itemsSub, Bool.and_eq_true]
    constructor
    · exact h k v (by simp [VDict.hasPair])
    · exact ih e (fun k' v' hp => h k' v'
        (by simp only [VDict.hasPair, Bool.or_eq_true]; exact Or.inr hp))

theorem itemsSub_refl (d : VDict) : itemsSub d d = true :=
  itemsSub_of_pairs d d (fun _ _ h => h)

-- The loop of containedKeys succeeds when every required pair is found
-- with a reflexively-true value.
theorem containedKeys_of_pairs :
    ∀ sub kvs : VDict,
      (∀ k v, sub.hasPair k v = true →
        kvs.lookup k = some v ∧ contained v v = .ok true) →
      containedKeys sub (.dict kvs) = .ok true := by
  intro sub
  induction sub using VDict.indOn with
  | nil => intro kvs _; rfl
  | cons k v rest ih =>
    intro kvs h
    have hh := h k v (by simp [VDict.hasPair])
    show (match kvs.lookup k with
          | none => (Except.ok false : Except PyErr Bool)
          | some av =>
            match contained v av with
            | .ok true => containedKeys rest (.dict kvs)
            | .ok false => .ok false
            | .error e => .error e) = .ok true
    rw [hh.1]
    show (match contained v v with
          | .ok true => containedKeys rest (.dict kvs)
          | .ok false => (Except.ok false : Except PyErr Bool)
          | .error e => .error e) = .ok true
    rw [hh.2]
    exact ih kvs (fun k' v' hp => h k' v'
      (by simp only [VDict.hasPair, Bool.or_eq_true]; exact Or.inr hp))

theorem contains_of_mem {v : Val} :
    ∀ l : VList, v ∈ l.toList → l.contains v = true := by
  intro l
  induction l using VList.indOn with
  | nil => intro h; simp [VList.toList] at h
  | cons h t ih =>
    intro hm
    simp only [VList.toList, List.mem_cons] at hm
    simp only [VList.contains, Bool.or_eq_true, decide_eq_true_eq]
    rcases hm with rfl | hm
    · exact Or.inl rfl
    · exact Or.inr (ih hm)

-- A list with no dict element matches a working copy that holds all its
-- elements; nothing is consumed.
theorem loopMatch_allNonDict :
    ∀ sub copy : VList, allNonDictL sub = true →
      (∀ v ∈ sub.toList, v ∈ copy.toList) →
      loopMatch sub copy = .ok (some sub.length) := by
  intro sub
  induction sub using VList.indOn with
  | nil => intro copy _ _; rfl
  | cons t ts ih =>
    intro copy hall hmem
    simp only [allNonDictL, Bool.and_eq_true, Bool.not_eq_true'] at hall
    have hc : copy.contains t = true :=
      contains_of_mem copy (hmem t (by simp [VList.toList]))
    have hrec : loopMatch ts copy = .ok (some ts.length) :=
      ih copy hall.2 (fun v hv => hmem v (by simp [VList.toList, hv]))
    cases t with
    | dict tkvs => simp [isDictV] at hall
    | null =>
      simp only [loopMatch, hc, if_true, hrec]
      rfl
    | str s =>
      simp only [loopMatch, hc, if_true, hrec]
      rfl
    | int n =>
      simp only [loopMatch, hc, if_true, hrec]
      rfl
    | list l2 =>
      simp only [loopMatch, hc, if_true, hrec]
      rfl

-- A maps-first list matches itself: while the required prefix is dicts,
-- each head consumes its own copy of itself (the working copy's head),
-- so no non-dict entry is ever scanned; the non-dict suffix then matches
-- by membership without consuming anything.
theorem loopMatch_mapsFirst_self :
    ∀ l : VList, mapsFirstL l = true → loopMatch l l = .ok (some l.length) := by
  intro l
  induction l using VList.indOn with
  | nil => intro _; rfl
  | cons h t ih =>
    intro hm
    cases h with
    | dict tkvs =>
      have hm2 : mapsFirstL t = true := hm
      have h1 : removeFirstSuper tkvs (VList.cons (.dict tkvs) t) = .ok (some t) := by
        show (if itemsSub tkvs tkvs then (Except.ok (some t) : Except PyErr (Option VList))
              else match removeFirstSuper tkvs t with
                   | .ok (some rest') => .ok (some (.cons (.dict tkvs) rest'))
                   | r => r) = .ok (some t)
        rw [if_pos (itemsSub_refl tkvs)]
      show (match removeFirstSuper tkvs (VList.cons (.dict tkvs) t) with
            | .error e => (Except.error e : Except PyErr (Option Nat))
            | .ok none => loopMatch t (VList.cons (.dict tkvs) t)
            | .ok (some copy') =>
              match loopMatch t copy' with
              | .ok (some c) => .ok (some (c + 1))
              | r => r) = .ok (some (VList.cons (.dict tkvs) t).length)
      rw [h1]
      show (match loopMatch t t with
            | .ok (some c) => (Except.ok (some (c + 1)) : Except PyErr (Option Nat))
            | r => r) = .ok (some (VList.cons (.dict tkvs) t).length)
      rw [ih hm2]
      rfl
    | null =>
      have hm2 : allNonDictL t = true := hm
      exact loopMatch_allNonDict (VList.cons Val.null t) (VList.cons Val.null t)
        (by simp [allNonDictL, isDictV, hm2]) (fun v hv => hv)
    | str s =>
      have hm2 : allNonDictL t = true := hm
      exact loopMatch_allNonDict (VList.cons (Val.str s) t) (VList.cons (Val.str s) t)
        (by simp [allNonDictL, isDictV, hm2]) (fun v hv => hv)
    | int n =>
      have hm2 : allNonDictL t = true := hm
      exact loopMatch_allNonDict (VList.cons (Val.int n) t) (VList.cons (Val.int n) t)
        (by simp [allNonDictL, isDictV, hm2]) (fun v hv => hv)
    | list l2 =>
      have hm2 : allNonDictL t = true := hm
      exact loopMatch_allNonDict (VList.cons (Val.list l2) t) (VList.cons (Val.list l2) t)
        (by simp [allNonDictL, isDictV, hm2]) (fun v hv => hv)

-- Reflexivity of `contained` on well-formed trees, by strong induction
-- on size.
theorem contained_refl_aux :
    ∀ n (v : Val), sizeOf v ≤ n → reflSafe v = true → contained v v = .ok true := by
  intro n
  induction n with
  | zero =>
    intro v hv _
    exfalso
    cases v <;> simp at hv
  | succ n ih =>
    intro v hv hs
    cases v with
    | null => decide
    | str s =>
      show (if Val.str s = Val.null ∧ Val.str s ≠ Val.null then Except.ok true
            else .ok (decide (Val.str s = Val.str s))) = .ok true
      simp
    | int m =>
      show (if Val.int m = Val.null ∧ Val.int m ≠ Val.null then Except.ok true
            else .ok (decide (Val.int m = Val.int m))) = .ok true
      simp
    | dict kvs =>
      simp only [reflSafe, Bool.and_eq_true] at hs
      have hsz : sizeOf kvs ≤ n := by simp at hv; omega
      show containedKeys kvs (.dict kvs) = .ok true
      refine containedKeys_of_pairs kvs kvs (fun k v hp => ?_)
      refine ⟨lookup_of_hasPair kvs hs.1 hp, ?_⟩
      have hlt := hasPair_sizeOf kvs hp
      exact ih v (by omega) (reflSafe_of_hasPair kvs hs.2 hp)
    | list l =>
      cases l with
      | nil => simp [reflSafe] at hs
      | cons h t =>
        by_cases hn : h = Val.null
        · subst hn
          show (if Val.null = Val.null ∧ VList.cons Val.null t ≠ VList.nil
                then (Except.ok true : Except PyErr Bool)
                else match loopMatch (VList.cons Val.null t) (VList.cons Val.null t) with
                     | .error e => .error e
                     | .ok none => .ok false
                     | .ok (some c) => .ok (decide (c = (VList.cons Val.null t).length)))
              = .ok true
          rw [if_pos ⟨rfl, by intro hne; exact VList.noConfusion hne⟩]
        · have hcond : ¬(h = Val.null ∧ VList.cons h t ≠ VList.nil) := by
            intro hco; exact hn hco.1
          simp only [reflSafe, Bool.or_eq_true, decide_eq_true_eq] at hs
          rcases hs with hs | hs
          · exact absurd hs hn
          · have hl := loopMatch_mapsFirst_self (VList.cons h t) hs
            show (if h = Val.null ∧ VList.cons h t ≠ VList.nil
                  then (Except.ok true : Except PyErr Bool)
                  else match loopMatch (VList.cons h t) (VList.cons h t) with
                       | .error e => .error e
                       | .ok none => .ok false
                       | .ok (some c) => .ok (decide (c = (VList.cons h t).length)))
                = .ok true
            rw [if_neg hcond, hl]
            simp

/-- C4 (amended) — `contained(E, E)` is true for every well-formed
environment tree `E`, where, restricting only as the counterexamples
force, well-formed means: every map of `E` has duplicate-free keys (as
real Python dicts do) and well-formed values, and every sequence of `E`
is non-empty and either starts with the wildcard or has no non-map
element before a map element.  In particular maps-first mixed sequences
such as `[{}, 1]` are covered: each required map consumes its own
working-copy head before any non-map is scanned. -/
theorem contained_refl_of_reflSafe (v : Val) (h : reflSafe v = true) :
    contained v v = .ok true :=
  contained_refl_aux (sizeOf v) v le_rfl h

/-- C4 counterexample — reflexivity fails on the code as the claim states
it: the empty sequence (a well-formed tree) makes `contained(E, E)` raise
`IndexError`, and a sequence with a non-map before a map makes it raise
`AttributeError` (the map's scan calls `.items()` on the non-map working-
copy entry), so `contained(E, E)` is not true for every well-formed
tree. -/
theorem contained_refl_counterexample :
    contained (.list .nil) (.list .nil) = .error .indexError
    ∧ contained (.list (.cons (.int 1) (.cons (.dict .nil) .nil)))
        (.list (.cons (.int 1) (.cons (.dict .nil) .nil)))
      = .error .attributeError :=
  ⟨by decide, by decide⟩

/-- Witness for the amended C4 at the all-map tree of Scenario D and at a
maps-first mixed sequence (a map followed by a scalar), the shape the
restriction deliberately keeps. -/
theorem contained_refl_of_reflSafe_witness :
    (reflSafe avScenD = true ∧ contained avScenD avScenD = .ok true)
    ∧ (reflSafe (.list (.cons (.dict .nil) (.cons (.int 1) .nil))) = true
      ∧ contained (.list (.cons (.dict .nil) (.cons (.int 1) .nil)))
          (.list (.cons (.dict .nil) (.cons (.int 1) .nil))) = .ok true) :=
  ⟨⟨by decide, contained_refl_of_reflSafe avScenD (by decide)⟩,
   ⟨by decide,
    contained_refl_of_reflSafe
      (.list (.cons (.dict .nil) (.cons (.int 1) .nil))) (by decide)⟩⟩

/-!
## The matcher never mutates its inputs (C7)
-/

-- Storing back the value that was just read leaves the dict unchanged.
theorem setKey_self {k : String} {v : Val} :
    ∀ d : VDict, d.lookup k = some v → d.setKey k v = d := by
  intro d
  induction d using VDict.indOn with
  | nil => intro h; exact Option.noConfusion h
  | cons k0 v0 t ih =>
    intro h
    by_cases hk : k0 = k
    · have h2 : (if k0 = k then some v0 else t.lookup k) = some v := h
      rw [if_pos hk] at h2
      cases Option.some.inj h2
      show (if k0 = k then VDict.cons k0 v t else VDict.cons k0 v (t.setKey k v))
        = VDict.cons k0 v t
      rw [if_pos hk]
    · have h2 : (if k0 = k then some v0 else t.lookup k) = some v := h
      rw [if_neg hk] at h2
      show (if k0 = k then VDict.cons k0 v t else VDict.cons k0 v0 (t.setKey k v))
        = VDict.cons k0 v0 t
      rw [if_neg hk, ih h2]

-- Joint size induction: the state-threaded matcher returns exactly the
-- pure matcher's result together with its untouched inputs.
theorem containedSt_frame_aux :
    ∀ n : Nat,
      (∀ (t a : Val), sizeOf t ≤ n → containedSt t a = (contained t a, t, a))
      ∧ (∀ (kvs : VDict) (a : Val), sizeOf kvs ≤ n →
          containedKeysSt kvs a = (containedKeys kvs a, kvs, a)) := by
  intro n
  induction n with
  | zero =>
    constructor
    · intro t a ht; exfalso; cases t <;> simp at ht
    · intro kvs a hk; exfalso; cases kvs <;> simp at hk
  | succ n ih =>
    constructor
    · intro t a ht
      cases t with
      | null =>
        show (if Val.null = Val.null ∧ a ≠ Val.null then ((Except.ok true : Except PyErr Bool), Val.null, a)
              else (.ok (decide (Val.null = a)), Val.null, a))
            = ((if Val.null = Val.null ∧ a ≠ Val.null then Except.ok true
                else .ok (decide (Val.null = a))), Val.null, a)
        by_cases hc : Val.null = Val.null ∧ a ≠ Val.null
        · rw [if_pos hc, if_pos hc]
        · rw [if_neg hc, if_neg hc]
      | str s =>
        show (if Val.str s = Val.null ∧ a ≠ Val.null then ((Except.ok true : Except PyErr Bool), Val.str s, a)
              else (.ok (decide (Val.str s = a)), Val.str s, a))
            = ((if Val.str s = Val.null ∧ a ≠ Val.null then Except.ok true
                else .ok (decide (Val.str s = a))), Val.str s, a)
        by_cases hc : Val.str s = Val.null ∧ a ≠ Val.null
        · rw [if_pos hc, if_pos hc]
        · rw [if_neg hc, if_neg hc]
      | int m =>
        show (if Val.int m = Val.null ∧ a ≠ Val.null then ((Except.ok true : Except PyErr Bool), Val.int m, a)
              else (.ok (decide (Val.int m = a)), Val.int m, a))
            = ((if Val.int m = Val.null ∧ a ≠ Val.null then Except.ok true
                else .ok (decide (Val.int m = a))), Val.int m, a)
        by_cases hc : Val.int m = Val.null ∧ a ≠ Val.null
        · rw [if_pos hc, if_pos hc]
        · rw [if_neg hc, if_neg hc]
      | dict kvs =>
        have hsz : sizeOf kvs ≤ n := by simp at ht; omega
        have ihd := ih.2 kvs a hsz
        show ((containedKeysSt kvs a).1, Val.dict (containedKeysSt kvs a).2.1,
              (containedKeysSt kvs a).2.2)
            = (containedKeys kvs a, Val.dict kvs, a)
        rw [ihd]
      | list ts =>
        cases a with
        | null => rfl
        | str s => rfl
        | int m => rfl
        | dict akvs => rfl
        | list av =>
          cases ts with
          | nil => rfl
          | cons t0 t =>
            by_cases hc : t0 = Val.null ∧ av ≠ VList.nil
            · show (if t0 = Val.null ∧ av ≠ VList.nil
                    then ((Except.ok true : Except PyErr Bool), Val.list (.cons t0 t), Val.list av)
                    else match loopMatch (.cons t0 t) av with
                         | .error e => (.error e, Val.list (.cons t0 t), Val.list av)
                         | .ok none => (.ok false, Val.list (.cons t0 t), Val.list av)
                         | .ok (some c) =>
                           (.ok (decide (c = (VList.cons t0 t).length)),
                             Val.list (.cons t0 t), Val.list av))
                  = ((if t0 = Val.null ∧ av ≠ VList.nil then Except.ok true
                      else match loopMatch (.cons t0 t) av with
                           | .error e => .error e
                           | .ok none => .ok false
                           | .ok (some c) => .ok (decide (c = (VList.cons t0 t).length))),
                     Val.list (.cons t0 t), Val.list av)
              rw [if_pos hc, if_pos hc]
            · show (if t0 = Val.null ∧ av ≠ VList.nil
                    then ((Except.ok true : Except PyErr Bool), Val.list (.cons t0 t), Val.list av)
                    else match loopMatch (.cons t0 t) av with
                         | .error e => (.error e, Val.list (.cons t0 t), Val.list av)
                         | .ok none => (.ok false, Val.list (.cons t0 t), Val.list av)
                         | .ok (some c) =>
                           (.ok (decide (c = (VList.cons t0 t).length)),
                             Val.list (.cons t0 t), Val.list av))
                  = ((if t0 = Val.null ∧ av ≠ VList.nil then Except.ok true
                      else match loopMatch (.cons t0 t) av with
                           | .error e => .error e
                           | .ok none => .ok false
                           | .ok (some c) => .ok (decide (c = (VList.cons t0 t).length))),
                     Val.list (.cons t0 t), Val.list av)
              rw [if_neg hc, if_neg hc]
              cases hl : loopMatch (.cons t0 t) av with
              | error e => rfl
              | ok o => cases o with
                | none => rfl
                | some c => rfl
    · intro kvs a hk
      cases kvs with
      | nil => rfl
      | cons k v rest =>
        cases a with
        | null => rfl
        | int m => rfl
        | str s => rfl
        | list l => rfl
        | dict akvs =>
          have hv : sizeOf v ≤ n := by simp at hk; omega
          have hr : sizeOf rest ≤ n := by simp at hk; omega
          cases hlk : akvs.lookup k with
          | none =>
            have e1 : containedKeysSt (VDict.cons k v rest) (Val.dict akvs)
                = ((Except.ok false : Except PyErr Bool), VDict.cons k v rest, Val.dict akvs) := by
              show (match akvs.lookup k with
                    | none => ((Except.ok false : Except PyErr Bool), VDict.cons k v rest, Val.dict akvs)
                    | some av =>
                      match (containedSt v av).1 with
                      | .ok true =>
                        ((containedKeysSt rest (.dict (akvs.setKey k (containedSt v av).2.2))).1,
                         .cons k (containedSt v av).2.1
                           (containedKeysSt rest (.dict (akvs.setKey k (containedSt v av).2.2))).2.1,
                         (containedKeysSt rest (.dict (akvs.setKey k (containedSt v av).2.2))).2.2)
                      | .ok false =>
                        (.ok false, .cons k (containedSt v av).2.1 rest,
                         .dict (akvs.setKey k (containedSt v av).2.2))
                      | .error e =>
                        (.error e, .cons k (containedSt v av).2.1 rest,
                         .dict (akvs.setKey k (containedSt v av).2.2)))
                  = ((Except.ok false : Except PyErr Bool), VDict.cons k v rest, Val.dict akvs)
              rw [hlk]
            have e2 : containedKeys (VDict.cons k v rest) (Val.dict akvs)
                = (Except.ok false : Except PyErr Bool) := by
              show (match akvs.lookup k with
                    | none => (Except.ok false : Except PyErr Bool)
                    | some av =>
                      match contained v av with
                      | .ok true => containedKeys rest (.dict akvs)
                      | .ok false => .ok false
                      | .error e => .error e)
                  = (Except.ok false : Except PyErr Bool)
              rw [hlk]
            rw [e1, e2]
          | some av =>
            have hst := ih.1 v av hv
            have hset : akvs.setKey k av = akvs := setKey_self akvs hlk
            have e1 : containedKeysSt (VDict.cons k v rest) (Val.dict akvs)
                = (match (containedSt v av).1 with
                   | .ok true =>
                     ((containedKeysSt rest (.dict (akvs.setKey k (containedSt v av).2.2))).1,
                      VDict.cons k (containedSt v av).2.1
                        (containedKeysSt rest (.dict (akvs.setKey k (containedSt v av).2.2))).2.1,
                      (containedKeysSt rest (.dict (akvs.setKey k (containedSt v av).2.2))).2.2)
                   | .ok false =>
                     (.ok false, VDict.cons k (containedSt v av).2.1 rest,
                      Val.dict (akvs.setKey k (containedSt v av).2.2))
                   | .error e =>
                     (.error e, VDict.cons k (containedSt v av).2.1 rest,
                      Val.dict (akvs.setKey k (containedSt v av).2.2))) := by
              show (match akvs.lookup k with
                    | none => ((Except.ok false : Except PyErr Bool), VDict.cons k v rest, Val.dict akvs)
                    | some av =>
                      match (containedSt v av).1 with
                      | .ok true =>
                        ((containedKeysSt rest (.dict (akvs.setKey k (containedSt v av).2.2))).1,
                         .cons k (containedSt v av).2.1
                           (containedKeysSt rest (.dict (akvs.setKey k (containedSt v av).2.2))).2.1,
                         (containedKeysSt rest (.dict (akvs.setKey k (containedSt v av).2.2))).2.2)
                      | .ok false =>
                        (.ok false, .cons k (containedSt v av).2.1 rest,
                         .dict (akvs.setKey k (containedSt v av).2.2))
                      | .error e =>
                        (.error e, .cons k (containedSt v av).2.1 rest,
                         .dict (akvs.setKey k (containedSt v av).2.2)))
                  = _
              rw [hlk]
            have e2 : containedKeys (VDict.cons k v rest) (Val.dict akvs)
                = (match contained v av with
                   | .ok true => containedKeys rest (.dict akvs)
                   | .ok false => .ok false
                   | .error e => .error e) := by
              show (match akvs.lookup k with
                    | none => (Except.ok false : Except PyErr Bool)
                    | some av2 =>
                      match contained v av2 with
                      | .ok true => containedKeys rest (.dict akvs)
                      | .ok false => .ok false
                      | .error e => .error e)
                  = _
              rw [hlk]
            rw [e1, e2]
            simp only [hst]
            rw [hset]
            cases hcv : contained v av with
            | error e => rfl
            | ok b =>
              cases b with
              | false => rfl
              | true =>
                have ihr := ih.2 rest (.dict akvs) hr
                rw [ihr]

/-- C7 — evaluating `contained(R, A)` leaves both the required tree `R` and
the available tree `A` unchanged: in the state-threaded translation
`containedSt`, where every Python object mutation is stored back, the final
states equal the inputs, because removals during list matching happen only
on the internally made working copy (`env_helper.copy()`), never on the
caller's trees. -/
theorem contained_pure_frame (r a : Val) :
    containedSt r a = (contained r a, r, a) :=
  (containedSt_frame_aux (sizeOf r)).1 r a le_rfl

/-!
## EnvHelper construction (C8)
-/

/-- C8 — constructing an `EnvHelper` over a non-null environment document
fails whenever the `version` field is absent (a `KeyError`) or is not one
of the whitelisted version strings (the `assert` fails); with a
whitelisted version it succeeds and stores the document; in particular
`{"version": "9.9"}` raises the version assertion at construction. -/
theorem envHelper_version_whitelist :
    (∀ (kvs : VDict) (m : Option String),
      ((envHelperInit (some (.dict kvs)) m).isOk = true ↔
        ∃ s, kvs.lookup "version" = some (.str s) ∧ s ∈ supportedVersions)
      ∧ ∀ st, envHelperInit (some (.dict kvs)) m = .ok st →
          st.env = some (.dict kvs))
    ∧ envHelperInit (some (.dict (.cons "version" (.str "9.9") .nil))) none
        = .error .assertVersion := by
  constructor
  · intro kvs m
    cases hlk : kvs.lookup "version" with
    | none =>
      have e1 : envHelperInit (some (.dict kvs)) m = .error .keyError := by
        show (match kvs.lookup "version" with
              | none => (.error .keyError : Except InitErr EnvHelperS)
              | some v =>
                match v with
                | .str s =>
                  if s ∈ supportedVersions then
                    .ok ⟨some (.dict kvs), some (m.getD "")⟩
                  else .error .assertVersion
                | _ => .error .assertVersion) = .error .keyError
        rw [hlk]
      rw [e1]
      refine ⟨⟨fun h => Bool.noConfusion h, ?_⟩, fun st hst => Except.noConfusion hst⟩
      rintro ⟨s, hs, _⟩
      exact Option.noConfusion hs
    | some v =>
      cases v with
      | str sv =>
        have e1 : envHelperInit (some (.dict kvs)) m
            = (if sv ∈ supportedVersions then
                 (.ok ⟨some (.dict kvs), some (m.getD "")⟩ : Except InitErr EnvHelperS)
               else .error .assertVersion) := by
          show (match kvs.lookup "version" with
                | none => (.error .keyError : Except InitErr EnvHelperS)
                | some v =>
                  match v with
                  | .str s =>
                    if s ∈ supportedVersions then
                      .ok ⟨some (.dict kvs), some (m.getD "")⟩
                    else .error .assertVersion
                  | _ => .error .assertVersion)
              = (if sv ∈ supportedVersions then
                   (.ok ⟨some (.dict kvs), some (m.getD "")⟩ : Except InitErr EnvHelperS)
                 else .error .assertVersion)
          rw [hlk]
        by_cases hmem : sv ∈ supportedVersions
        · rw [e1, if_pos hmem]
          refine ⟨⟨fun _ => ⟨sv, rfl, hmem⟩, fun _ => rfl⟩, fun st hst => ?_⟩
          cases Except.ok.inj hst
          rfl
        · rw [e1, if_neg hmem]
          refine ⟨⟨fun h => Bool.noConfusion h, ?_⟩, fun st hst => Except.noConfusion hst⟩
          rintro ⟨s2, hs2, hmem2⟩
          cases Val.str.inj (Option.some.inj hs2)
          exact absurd hmem2 hmem
      | null =>
        have e1 : envHelperInit (some (.dict kvs)) m = .error .assertVersion := by
          show (match kvs.lookup "version" with
                | none => (.error .keyError : Except InitErr EnvHelperS)
                | some v =>
                  match v with
                  | .str s =>
                    if s ∈ supportedVersions then
                      .ok ⟨some (.dict kvs), some (m.getD "")⟩
                    else .error .assertVersion
                  | _ => .error .assertVersion) = .error .assertVersion
          rw [hlk]
        rw [e1]
        refine ⟨⟨fun h => Bool.noConfusion h, ?_⟩, fun st hst => Except.noConfusion hst⟩
        rintro ⟨s2, hs2, _⟩
        exact Val.noConfusion (Option.some.inj hs2)
      | int n =>
        have e1 : envHelperInit (some (.dict kvs)) m = .error .assertVersion := by
          show (match kvs.lookup "version" with
                | none => (.error .keyError : Except InitErr EnvHelperS)
                | some v =>
                  match v with
                  | .str s =>
                    if s ∈ supportedVersions then
                      .ok ⟨some (.dict kvs), some (m.getD "")⟩
                    else .error .assertVersion
                  | _ => .error .assertVersion) = .error .assertVersion
          rw [hlk]
        rw [e1]
        refine ⟨⟨fun h => Bool.noConfusion h, ?_⟩, fun st hst => Except.noConfusion hst⟩
        rintro ⟨s2, hs2, _⟩
        exact Val.noConfusion (Option.some.inj hs2)
      | list l =>
        have e1 : envHelperInit (some (.dict kvs)) m = .error .assertVersion := by
          show (match kvs.lookup "version" with
                | none => (.error .keyError : Except InitErr EnvHelperS)
                | some v =>
                  match v with
                  | .str s =>
                    if s ∈ supportedVersions then
                      .ok ⟨some (.dict kvs), some (m.getD "")⟩
                    else .error .assertVersion
                  | _ => .error .assertVersion) = .error .assertVersion
          rw [hlk]
        rw [e1]
        refine ⟨⟨fun h => Bool.noConfusion h, ?_⟩, fun st hst => Except.noConfusion hst⟩
        rintro ⟨s2, hs2, _⟩
        exact Val.noConfusion (Option.some.inj hs2)
      | dict d =>
        have e1 : envHelperInit (some (.dict kvs)) m = .error .assertVersion := by
          show (match kvs.lookup "version" with
                | none => (.error .keyError : Except InitErr EnvHelperS)
                | some v =>
                  match v with
                  | .str s =>
                    if s ∈ supportedVersions then
                      .ok ⟨some (.dict kvs), some (m.getD "")⟩
                    else .error .assertVersion
                  | _ => .error .assertVersion) = .error .assertVersion
          rw [hlk]
        rw [e1]
        refine ⟨⟨fun h => Bool.noConfusion h, ?_⟩, fun st hst => Except.noConfusion hst⟩
        rintro ⟨s2, hs2, _⟩
        exact Val.noConfusion (Option.some.inj hs2)
  · decide

/-- Witness for C8 at a whitelisted version. -/
theorem envHelper_version_whitelist_witness :
    ((envHelperInit (some (.dict (.cons "version" (.str "1.0") .nil))) none).isOk = true)
    ∧ ∀ st, envHelperInit (some (.dict (.cons "version" (.str "1.0") .nil))) none = .ok st →
        st.env = some (.dict (.cons "version" (.str "1.0") .nil)) :=
  ⟨(envHelper_version_whitelist.1 (.cons "version" (.str "1.0") .nil) none).1.mpr
      ⟨"1.0", rfl, by decide⟩,
   (envHelper_version_whitelist.1 (.cons "version" (.str "1.0") .nil) none).2⟩

/-!
## `get_device` exception propagation (C5)
-/

-- A prefix compares equal to itself in front of any continuation.
theorem prefEq_self_append : ∀ n post : List Char, prefEq n (n ++ post) = true := by
  intro n
  induction n with
  | nil => intro post; rfl
  | cons c t ih =>
    intro post
    simp only [List.cons_append, prefEq, decide_eq_true_eq, Bool.and_eq_true]
    exact ⟨by trivial, ih post⟩

theorem strInL_append : ∀ pre n post : List Char, strInL n (pre ++ n ++ post) = true := by
  intro pre
  induction pre with
  | nil =>
    intro n post
    cases n with
    | nil =>
      cases post with
      | nil => rfl
      | cons c t => rfl
    | cons c t =>
      simp only [List.nil_append, List.cons_append, strInL, Bool.or_eq_true]
      exact Or.inl (by
        simp only [prefEq, decide_eq_true_eq, Bool.and_eq_true]
        exact ⟨by trivial, prefEq_self_append t post⟩)
  | cons c t ih =>
    intro n post
    simp only [List.cons_append, strInL, Bool.or_eq_true]
    exact Or.inr (ih n post)

-- Python `mid in (pre + mid + post)` is always true.
theorem strIn_append (pre mid post : String) :
    strIn mid (pre ++ mid ++ post) = true := by
  show strInL mid.toList (pre ++ mid ++ post).toList = true
  have : (pre ++ mid ++ post).toList = pre.toList ++ mid.toList ++ post.toList := by
    show (pre ++ mid ++ post).data = pre.data ++ mid.data ++ post.data
    rw [String.data_append, String.data_append]
  rw [this]
  exact strInL_append pre.toList mid.toList post.toList

/-- C5 counterexample — the claim as stated is false on the code: a
non-transport initializer exception (anything other than `pexpect.EOF`,
here `Exception("boom")` while requesting model `"modemA"`) is re-raised
as `Exception(str(e))` carrying only the original message, which does not
contain the requested model name, so it is not wrapped with the model
name as context. -/
theorem get_device_wrap_counterexample :
    getDeviceExceptClauses "modemA" (.exception "boom") = .exception "boom"
    ∧ strIn "modemA" "boom" = false :=
  ⟨rfl, by decide⟩

/-- C5 (amended) — when a selected descriptor's initializer raises inside
`get_device`: a connection-refused error propagates unchanged (as does
`BftNotSupportedDevice`); a `pexpect.EOF` failure is replaced by a generic
exception whose message names the requested model; any other exception is
re-raised as a generic exception carrying only the original message (the
model name is not added); the handler maps each single outcome once, so
nothing is retried. -/
theorem get_device_initializer_exceptions (model msg : String) :
    getDeviceExceptClauses model (.connectionRefused msg) = .connectionRefused msg
    ∧ getDeviceExceptClauses model (.bftNotSupportedDevice msg)
        = .bftNotSupportedDevice msg
    ∧ getDeviceExceptClauses model (.exception msg) = .exception msg
    ∧ ∃ emsg, getDeviceExceptClauses model .pexpectEOF = .exception emsg
        ∧ strIn model emsg = true :=
  ⟨rfl, rfl, rfl,
   "Failed to connect to a " ++ model
     ++ ", unable to connect (in use) or possibly misconfigured",
   rfl,
   strIn_append "Failed to connect to a " model
     ", unable to connect (in use) or possibly misconfigured"⟩

/-!
## `get_device` profile resolution (C1, C10)
-/

/-- C1 counterexample — in Scenario A both descriptors are primary
candidates (their alias equals the requested model), so the profile merge
is skipped for each of them as a duplicate: the composite does expose
`start`, `stop` and `configure` (together with the classes' `model` and
`profile` attributes), but its recorded `target` configuration has no
`mode` key at all — the claim's merged `mode="bridge"` entry is absent. -/
theorem get_device_scenarioA_counterexample :
    ((getDevice regA "modemA" kwA).1.map Composite.exposed)
      = .ok ["model", "start", "stop", "model", "profile", "configure"]
    ∧ ((getDevice regA "modemA" kwA).1.map (fun c => c.target.lookup "mode"))
      = .ok none := by
  exact ⟨by decide, by decide⟩

/-- C1 (amended) — in Scenario A, `get_device("modemA", mgr,
profile={"modemA": {"mode": "bridge"}})` returns a composite exposing
`start`, `stop` and `configure`; because both descriptors are already
primary candidates, the profile override is not merged into the top-level
configuration, and the recorded `target` contains `mode="bridge"` only
nested inside the pass-through `profile` entry
(`target["profile"]["modemA"]["mode"] == "bridge"`), with no top-level
`mode` key. -/
theorem get_device_scenarioA :
    ((getDevice regA "modemA" kwA).1.map Composite.exposed)
      = .ok ["model", "start", "stop", "model", "profile", "configure"]
    ∧ ((getDevice regA "modemA" kwA).1.map (fun c => c.target.lookup "profile"))
      = .ok (some (.dict (.cons "modemA"
          (.dict (.cons "mode" (.str "bridge") .nil)) .nil)))
    ∧ ((getDevice regA "modemA" kwA).1.map (fun c => c.target.lookup "mode"))
      = .ok none := by
  exact ⟨by decide, by decide, by decide⟩

-- One resolution step over a pure profile-extension candidate: the
-- caller's profile mapping comes back with the colliding override keys
-- popped from the matched alias's dict.
theorem resolveLoop_profile_pop (model : String) (dev : Dev) (kwargs profile : VDict)
    (al : String) (pk : VDict)
    (h1 : primaryMatch model dev.model = false)
    (h2 : profMatch dev.model profile = some (al, pk)) :
    (resolveLoop model [dev] [] [] kwargs profile).2.2.2
      = profile.setKey al (.dict (pk.dropKeysIn kwargs)) := by
  simp only [resolveLoop, h1, h2, Bool.false_eq_true, if_false, List.nil_append,
    List.not_mem_nil, if_neg, not_false_eq_true]

/-- C10 — when `get_device` resolves a profile override for a selected
descriptor and an override key is already present in the pass-through
configuration, the colliding key is popped in place from the caller's own
`profile[alias]` dict: the profile mapping handed back by resolution is
the caller's mapping with those keys removed, and concretely, after
`get_device(regB, "lan", profile={"lan2": {"color": "red", "speed": 5}},
color="blue")`, the caller's profile maps `"lan2"` to `{"speed": 5}` —
the `color` key is gone from the caller's own object. -/
theorem get_device_profile_mutation :
    (∀ (model : String) (dev : Dev) (kwargs profile : VDict) (al : String) (pk : VDict),
        primaryMatch model dev.model = false →
        profMatch dev.model profile = some (al, pk) →
        (resolveLoop model [dev] [] [] kwargs profile).2.2.2
          = profile.setKey al (.dict (pk.dropKeysIn kwargs)))
    ∧ (asDict ((kwB.lookup "profile").getD .null)).lookup "lan2"
        = some (.dict (.cons "color" (.str "red") (.cons "speed" (.int 5) .nil)))
    ∧ (getDevice regB "lan" kwB).2
        = .cons "lan2" (.dict (.cons "speed" (.int 5) .nil)) .nil :=
  ⟨resolveLoop_profile_pop, by decide, by decide⟩

/-- Witness for C10's general part at the concrete extension descriptor. -/
theorem get_device_profile_mutation_witness :
    primaryMatch "lan" (Dev.mk "LanExt" (.str "lan2") ["model", "g"]).model = false
    ∧ profMatch (Dev.mk "LanExt" (.str "lan2") ["model", "g"]).model
        (.cons "lan2" (.dict (.cons "color" (.str "red") (.cons "speed" (.int 5) .nil))) .nil)
        = some ("lan2", .cons "color" (.str "red") (.cons "speed" (.int 5) .nil))
    ∧ (resolveLoop "lan" [Dev.mk "LanExt" (.str "lan2") ["model", "g"]] [] [] kwB
        (.cons "lan2" (.dict (.cons "color" (.str "red") (.cons "speed" (.int 5) .nil))) .nil)).2.2.2
      = (VDict.cons "lan2"
          (.dict (.cons "color" (.str "red") (.cons "speed" (.int 5) .nil))) .nil).setKey
          "lan2"
          (.dict ((VDict.cons "color" (.str "red")
            (.cons "speed" (.int 5) .nil)).dropKeysIn kwB)) :=
  ⟨by decide, by decide,
   get_device_profile_mutation.1 "lan" (Dev.mk "LanExt" (.str "lan2") ["model", "g"]) kwB
     (.cons "lan2" (.dict (.cons "color" (.str "red") (.cons "speed" (.int 5) .nil))) .nil)
     "lan2" (.cons "color" (.str "red") (.cons "speed" (.int 5) .nil))
     (by decide) (by decide)⟩

/-!
## The `bf_node` conflict check (C2)
-/

-- Position of an element in a list it occurs in exactly once past `pre`.
theorem indexOf_middle (c : Dev) : ∀ pre rest : List Dev, c ∉ pre →
    (pre ++ c :: rest).indexOf c = pre.length := by
  intro pre
  induction pre with
  | nil => intro rest _; simp
  | cons p ps ih =>
    intro rest hc
    have hcp : c ≠ p := fun h => hc (by simp [h])
    show (p :: (ps ++ c :: rest)).indexOf c = ps.length + 1
    rw [List.indexOf_cons]
    simp only [beq_eq_false_iff_ne.mpr (Ne.symm hcp), cond_false]
    rw [ih rest (fun h => hc (List.mem_cons_of_mem p h))]

-- The conflict loop succeeds iff no processed class shares a non-reserved
-- member with the starting accumulator or with an earlier processed class.
theorem bfLoop_ok_iff (orig : List Dev) :
    ∀ (l : List Dev) (acc : List String),
      (bfNodeLoop orig l acc).isOk = true ↔
        ((∀ c ∈ l, ∀ m ∈ clsMembers c, m ∉ acc)
          ∧ l.Pairwise (fun a b => ∀ m, m ∈ clsMembers b → m ∉ clsMembers a)) := by
  intro l
  induction l with
  | nil =>
    intro acc
    constructor
    · intro _; exact ⟨by simp, List.Pairwise.nil⟩
    · intro _; rfl
  | cons c rest ih =>
    intro acc
    by_cases hcom : (clsMembers c).filter (fun m => decide (m ∈ acc)) = []
    · have e1 : bfNodeLoop orig (c :: rest) acc
          = bfNodeLoop orig rest (acc ++ clsMembers c) := by
        show (if ((clsMembers c).filter (fun m => decide (m ∈ acc))).isEmpty
              then bfNodeLoop orig rest (acc ++ clsMembers c)
              else .error ((clsMembers c).filter (fun m => decide (m ∈ acc)),
                           orig.take (orig.indexOf c + 1)))
            = bfNodeLoop orig rest (acc ++ clsMembers c)
        rw [hcom]
        rfl
      rw [e1, ih (acc ++ clsMembers c)]
      have hdis : ∀ m ∈ clsMembers c, m ∉ acc := by
        intro m hm hacc
        have := List.filter_eq_nil_iff.mp hcom m hm
        simp at this
        exact this hacc
      constructor
      · rintro ⟨h1, h2⟩
        refine ⟨?_, List.pairwise_cons.mpr ⟨?_, h2⟩⟩
        · intro c' hc' m hm
          rcases List.mem_cons.mp hc' with rfl | hc'
          · exact hdis m hm
          · intro hacc
            exact h1 c' hc' m hm (List.mem_append.mpr (Or.inl hacc))
        · intro b hb m hmb hmc
          exact h1 b hb m hmb (List.mem_append.mpr (Or.inr hmc))
      · rintro ⟨h1, h2⟩
        have h2' := List.pairwise_cons.mp h2
        refine ⟨?_, h2'.2⟩
        intro c' hc' m hm hmem
        rcases List.mem_append.mp hmem with hacc | hcm
        · exact h1 c' (List.mem_cons_of_mem c hc') m hm hacc
        · exact h2'.1 c' hc' m hm hcm
    · have e1 : bfNodeLoop orig (c :: rest) acc
          = .error ((clsMembers c).filter (fun m => decide (m ∈ acc)),
                    orig.take (orig.indexOf c + 1)) := by
        show (if ((clsMembers c).filter (fun m => decide (m ∈ acc))).isEmpty
              then bfNodeLoop orig rest (acc ++ clsMembers c)
              else .error ((clsMembers c).filter (fun m => decide (m ∈ acc)),
                           orig.take (orig.indexOf c + 1)))
            = .error ((clsMembers c).filter (fun m => decide (m ∈ acc)),
                      orig.take (orig.indexOf c + 1))
        rw [if_neg (fun h => hcom (List.isEmpty_iff.mp h))]
      rw [e1]
      constructor
      · intro h; exact Bool.noConfusion h
      · rintro ⟨h1, _⟩
        exfalso
        obtain ⟨m, hm⟩ := List.exists_mem_of_ne_nil _ hcom
        have hm2 := List.mem_filter.mp hm
        have hmc : m ∈ clsMembers c := hm2.1
        have hacc : m ∈ acc := by
          have := hm2.2; simp at this; exact this
        exact h1 c (List.mem_cons_self c rest) m hmc hacc

-- When the conflict loop raises, the payload names the offending class's
-- members already seen, and the original list up to that class.
theorem bfLoop_error_payload (orig : List Dev) (hnd : orig.Nodup) :
    ∀ (l pre : List Dev), orig = pre ++ l →
      ∀ names descs,
        bfNodeLoop orig l (pre.flatMap clsMembers) = .error (names, descs) →
        ∃ k, ∃ hk : k < l.length,
          descs = orig.take (pre.length + k + 1)
          ∧ names = (clsMembers (l.get ⟨k, hk⟩)).filter
              (fun m => decide (m ∈ (pre ++ l.take k).flatMap clsMembers)) := by
  intro l
  induction l with
  | nil => intro pre _ names descs h; exact Except.noConfusion h
  | cons c rest ih =>
    intro pre horig names descs h
    by_cases hcom : (clsMembers c).filter
        (fun m => decide (m ∈ pre.flatMap clsMembers)) = []
    · have hacc : pre.flatMap clsMembers ++ clsMembers c
          = (pre ++ [c]).flatMap clsMembers := by simp
      have e1 : bfNodeLoop orig (c :: rest) (pre.flatMap clsMembers)
          = bfNodeLoop orig rest ((pre ++ [c]).flatMap clsMembers) := by
        show (if ((clsMembers c).filter
                  (fun m => decide (m ∈ pre.flatMap clsMembers))).isEmpty
              then bfNodeLoop orig rest (pre.flatMap clsMembers ++ clsMembers c)
              else .error ((clsMembers c).filter
                  (fun m => decide (m ∈ pre.flatMap clsMembers)),
                  orig.take (orig.indexOf c + 1)))
            = bfNodeLoop orig rest ((pre ++ [c]).flatMap clsMembers)
        rw [hcom, hacc]
        rfl
      rw [e1] at h
      obtain ⟨k, hk, hdescs, hnames⟩ :=
        ih (pre ++ [c]) (by rw [horig]; simp) names descs h
      refine ⟨k + 1, Nat.succ_lt_succ hk, ?_, ?_⟩
      · rw [hdescs]
        congr 1
        simp
        omega
      · rw [hnames]
        have hl2 : ((pre ++ [c]) ++ rest.take k)
            = (pre ++ (c :: rest).take (k + 1)) := by simp
        rw [hl2]
        rfl
    · have e1 : bfNodeLoop orig (c :: rest) (pre.flatMap clsMembers)
          = .error ((clsMembers c).filter
              (fun m => decide (m ∈ pre.flatMap clsMembers)),
              orig.take (orig.indexOf c + 1)) := by
        show (if ((clsMembers c).filter
                  (fun m => decide (m ∈ pre.flatMap clsMembers))).isEmpty
              then bfNodeLoop orig rest (pre.flatMap clsMembers ++ clsMembers c)
              else .error ((clsMembers c).filter
                  (fun m => decide (m ∈ pre.flatMap clsMembers)),
                  orig.take (orig.indexOf c + 1)))
            = .error ((clsMembers c).filter
                (fun m => decide (m ∈ pre.flatMap clsMembers)),
                orig.take (orig.indexOf c + 1))
        rw [if_neg (fun h2 => hcom (List.isEmpty_iff.mp h2))]
      rw [e1] at h
      have hpair := Prod.mk.inj (Except.error.inj h)
      have hcpre : c ∉ pre := by
        intro hcp
        rw [horig] at hnd
        have := (List.nodup_append.mp hnd).2.2
        exact this hcp (List.mem_cons_self c rest)
      have hidx : orig.indexOf c = pre.length := by
        rw [horig]
        exact indexOf_middle c pre rest hcpre
      refine ⟨0, Nat.succ_pos _, ?_, ?_⟩
      · rw [← hpair.2, hidx]
      · rw [← hpair.1]
        simp

/-- C2 (amended) — for a duplicate-free ordered list of descriptors
selected for one composition (selection never lists a class twice),
`bf_node` raises the composition-conflict error if and only if some
descriptor exports a member name, other than a reserved one (a name
starting **or** ending with a double underscore, or `model`, `prompt`,
`profile` — the code reserves one-sided dunder names too, which is the
only change the counterexample forces), that is also exported by an
earlier descriptor; when it raises, the error names exactly the shared
member names (the offending class's non-reserved members already seen)
and the descriptors up to and including the offending one; when all
non-reserved member sets are pairwise disjoint it never raises. -/
theorem bf_node_conflict (l : List Dev) (hnd : l.Nodup) (kw : VDict) :
    ((bfNode l kw).isOk = true ↔
      l.Pairwise (fun a b => ∀ m, m ∈ clsMembers b → m ∉ clsMembers a))
    ∧ ((∃ e, bfNode l kw = .error e) ↔
        ∃ i j : Fin l.length, j < i ∧
          ∃ m, m ∈ clsMembers (l.get i) ∧ m ∈ clsMembers (l.get j))
    ∧ (∀ names descs, bfNode l kw = .error (names, descs) →
        ∃ k, ∃ hk : k < l.length,
          descs = l.take (k + 1)
          ∧ names = (clsMembers (l.get ⟨k, hk⟩)).filter
              (fun m => decide (m ∈ (l.take k).flatMap clsMembers))) := by
  have hok : (bfNode l kw).isOk = (bfNodeLoop l l []).isOk := by
    show (match bfNodeLoop l l [] with
          | .error e => (Except.error e : Except (List String × List Dev) Composite)
          | .ok _ => .ok ⟨l.flatMap Dev.members, kw⟩).isOk
        = (bfNodeLoop l l []).isOk
    cases hl : bfNodeLoop l l [] with
    | error e => rfl
    | ok u => rfl
  have herr : ∀ e, bfNode l kw = .error e ↔ bfNodeLoop l l [] = .error e := by
    intro e
    show (match bfNodeLoop l l [] with
          | .error e2 => (Except.error e2 : Except (List String × List Dev) Composite)
          | .ok _ => .ok ⟨l.flatMap Dev.members, kw⟩) = .error e
        ↔ bfNodeLoop l l [] = .error e
    cases hl : bfNodeLoop l l [] with
    | error e2 =>
      constructor
      · intro h2; exact congrArg (Except.error) (Except.error.inj h2)
      · intro h2; exact congrArg (Except.error) (Except.error.inj h2)
    | ok u =>
      constructor
      · intro h2; exact Except.noConfusion h2
      · intro h2; exact Except.noConfusion h2
  have hpart1 : (bfNode l kw).isOk = true ↔
      l.Pairwise (fun a b => ∀ m, m ∈ clsMembers b → m ∉ clsMembers a) := by
    rw [hok, bfLoop_ok_iff l l []]
    simp
  refine ⟨hpart1, ?_, ?_⟩
  · have hnotok : (∃ e, bfNode l kw = .error e) ↔ ¬((bfNode l kw).isOk = true) := by
      cases hb : bfNode l kw with
      | error e =>
        simp only [Except.isOk, Except.toBool]
        exact ⟨fun _ => by simp, fun _ => ⟨e, rfl⟩⟩
      | ok c =>
        simp only [Except.isOk, Except.toBool]
        constructor
        · rintro ⟨e, he⟩; exact Except.noConfusion he
        · intro h2; exact absurd trivial h2
    rw [hnotok, hpart1, List.pairwise_iff_get]
    push_neg
    constructor
    · rintro ⟨i, j, hij, m, hm1, hm2⟩
      exact ⟨j, i, hij, m, hm1, hm2⟩
    · rintro ⟨i, j, hij, m, hm1, hm2⟩
      exact ⟨j, i, hij, m, hm1, hm2⟩
  · intro names descs h
    have h2 : bfNodeLoop l l ((List.nil : List Dev).flatMap clsMembers)
        = .error (names, descs) := (herr (names, descs)).mp h
    obtain ⟨k, hk, hdescs, hnames⟩ :=
      bfLoop_error_payload l hnd l [] rfl names descs h2
    refine ⟨k, hk, ?_, ?_⟩
    · simpa using hdescs
    · simpa using hnames

/-- C2 counterexample — the claim as stated is false on the code: the
member name `"x__"` does not start **and** end with a double underscore
(it only ends with one) and is none of `model`, `prompt`, `profile`, so
the claim counts it as non-reserved; two descriptors both exporting it
should therefore raise the conflict error, yet `bf_node` composes them
without raising, because the code also excludes names that merely end
(or merely start) with a double underscore. -/
theorem bf_node_conflict_counterexample :
    ¬(pyStarts "x__" "__" = true ∧ pyEnds "x__" "__" = true)
    ∧ ("x__" ∉ (["model", "prompt", "profile"] : List String))
    ∧ "x__" ∈ (Dev.mk "D1" (.str "a") ["x__"]).members
    ∧ "x__" ∈ (Dev.mk "D2" (.str "b") ["x__"]).members
    ∧ (bfNode [Dev.mk "D1" (.str "a") ["x__"], Dev.mk "D2" (.str "b") ["x__"]]
        .nil).isOk = true := by
  refine ⟨?_, by decide, by decide, by decide, by decide⟩
  rintro ⟨hs, _⟩
  exact absurd hs (by decide)

/-- Witness for C2 at a two-descriptor conflict on member `"f"`. -/
theorem bf_node_conflict_witness :
    ([Dev.mk "D1" (.str "a") ["f"], Dev.mk "D2" (.str "b") ["f"]].Nodup)
    ∧ (∃ k, ∃ hk : k < ([Dev.mk "D1" (.str "a") ["f"],
          Dev.mk "D2" (.str "b") ["f"]] : List Dev).length,
        ([Dev.mk "D1" (.str "a") ["f"], Dev.mk "D2" (.str "b") ["f"]] : List Dev)
            = ([Dev.mk "D1" (.str "a") ["f"],
                Dev.mk "D2" (.str "b") ["f"]] : List Dev).take (k + 1)
          ∧ ["f"] = (clsMembers (([Dev.mk "D1" (.str "a") ["f"],
              Dev.mk "D2" (.str "b") ["f"]] : List Dev).get ⟨k, hk⟩)).filter
              (fun m => decide (m ∈ (([Dev.mk "D1" (.str "a") ["f"],
                Dev.mk "D2" (.str "b") ["f"]] : List Dev).take k).flatMap clsMembers))) :=
  ⟨by decide,
   (bf_node_conflict [Dev.mk "D1" (.str "a") ["f"], Dev.mk "D2" (.str "b") ["f"]]
      (by decide) .nil).2.2 ["f"]
      [Dev.mk "D1" (.str "a") ["f"], Dev.mk "D2" (.str "b") ["f"]] (by decide)⟩
